import Mathlib

/-!
Verification of the flashcards repository's card store and import pipeline.

The development shallowly embeds the TypeScript source:

* `JsonVal` models the values produced by `JSON.parse` (numbers as exact
  rationals; the runtime values flowing through the untyped validation code).
* `jsTrim`, `matchFence`, `stripAndTrim` model `String.prototype.trim` and the
  code-fence-stripping regular expression used in `services/geminiService.ts`.
* `jsonParse` models `JSON.parse` (fuel-bounded recursive descent; the fuel is
  always sufficient for inputs whose nesting depth is at most their length).
* `loopItems`/`extractCore`/`extractRun` model `extractMCQsFromPDF`,
  `generateOneFromItem` models `generateMCQWithGemini`.
* `loadFlashcards`, `addFlashcard`, `updateFlashcard`, `deleteFlashcard`,
  `bulkAppend`, `runOp` model `hooks/useFlashcards.ts`, and `uniquePdfSources`
  models the derived source index in `App.tsx`.
-/

/-- A JavaScript value as produced by `JSON.parse`.  Numbers are modeled as
exact rationals (JSON numeric literals are decimal; the floating-point
rounding performed by the JS engine is irrelevant to the small integer and
half-integer values exercised here). -/
inductive JsonVal where
  | str (s : String)
  | num (q : Rat)
  | boolean (b : Bool)
  | null
  | arr (elems : List JsonVal)
  | obj (fields : List (String × JsonVal))

/-- JavaScript whitespace: the character set matched by the regex class
`\s` and removed by `String.prototype.trim` (WhiteSpace plus
LineTerminator code points). -/
def jsWhite (c : Char) : Bool :=
  c.toNat == 0x9 || c.toNat == 0xA || c.toNat == 0xB || c.toNat == 0xC ||
  c.toNat == 0xD || c.toNat == 0x20 || c.toNat == 0xA0 || c.toNat == 0x1680 ||
  (0x2000 ≤ c.toNat && c.toNat ≤ 0x200A) || c.toNat == 0x2028 ||
  c.toNat == 0x2029 || c.toNat == 0x202F || c.toNat == 0x205F ||
  c.toNat == 0x3000 || c.toNat == 0xFEFF

/-- The regex class `\w`: ASCII letters, digits and underscore. -/
def isWordChar (c : Char) : Bool :=
  (('a' ≤ c && c ≤ 'z') || ('A' ≤ c && c ≤ 'Z') || ('0' ≤ c && c ≤ '9') || c == '_')

/-- Remove trailing JS whitespace from a character list. -/
def rstrip (l : List Char) : List Char :=
  (l.reverse.dropWhile jsWhite).reverse

/-- Model of `String.prototype.trim` on character lists. -/
def jsTrimList (l : List Char) : List Char :=
  rstrip (l.dropWhile jsWhite)

/-- Model of `String.prototype.trim`. -/
def jsTrim (s : String) : String :=
  String.mk (jsTrimList s.data)

/-- The three-backtick fence marker. -/
def fence3 : List Char := "```".data

/-- The newline character. -/
def nlChar : Char := Char.ofNat 10

/-- Whether a character list matches the regex tail `\n?\s*` followed by three
backticks and end of input.  Since `\n` is itself in `\s`, the language of
`\n?\s*` is exactly `\s*`, so this holds iff the list ends with three
backticks preceded only by whitespace. -/
def fenceTail (cs : List Char) : Bool :=
  cs.reverse.take 3 == fence3 && (cs.reverse.drop 3).all jsWhite

/-- The lazy group `(.*?)` of the fence regex: scanning left to right, return
the shortest prefix (the capture) whose complement matches `\n?\s*`+three
backticks+end-of-input.  `acc` holds the capture accumulated so far, in
reverse. -/
def lazyCapture (acc : List Char) : List Char → Option (List Char)
  | [] => if fenceTail [] then some acc.reverse else none
  | c :: rest =>
      if fenceTail (c :: rest) then some acc.reverse
      else lazyCapture (c :: acc) (c :: rest).tail

/-- Model of matching the anchored regex
`^`+fence+`(\w*)?\s*\n?(.*?)\n?\s*`+fence+`$` (dotall) against a whole string,
returning the second capture group when the string matches.

The backtracking search is collapsed as follows: whether the whole pattern
matches is independent of how `(\w*)?\s*\n?` splits its greedy consumption
(the suffix matcher `fenceTail` only looks at the tail of the rest), so the
engine's preferred alternative — maximal word run, then maximal whitespace
run (after which no `\n` can follow, as `\n` is whitespace) — wins whenever
any alternative does, and the lazy group then takes the shortest capture. -/
def matchFence (l : List Char) : Option (List Char) :=
  if l.take 3 = fence3 then
    lazyCapture [] (((l.drop 3).dropWhile isWordChar).dropWhile jsWhite)
  else none

/-- Model of the response post-processing in `geminiService.ts`:
`jsonStr = text.trim()`, then if the fence regex matches with a non-empty
second group, `jsonStr = match[2].trim()`. -/
def stripAndTrim (s : String) : String :=
  match matchFence (jsTrim s).data with
  | some g2 => if g2 = [] then jsTrim s else jsTrim (String.mk g2)
  | none => jsTrim s

/-- JSON whitespace (the `ws` production of the JSON grammar). -/
def isJsonWs (c : Char) : Bool :=
  c == ' ' || c.toNat == 0x9 || c.toNat == 0xA || c.toNat == 0xD

/-- Numeric value of a decimal digit. -/
def digitVal (c : Char) : Nat := c.toNat - 48

/-- Numeric value of a hexadecimal digit, if any. -/
def hexVal (c : Char) : Option Nat :=
  if '0' ≤ c && c ≤ '9' then some (c.toNat - 48)
  else if 'a' ≤ c && c ≤ 'f' then some (c.toNat - 87)
  else if 'A' ≤ c && c ≤ 'F' then some (c.toNat - 55)
  else none

/-- Parse the body of a JSON string after the opening quote, returning the
decoded characters and the input following the closing quote.  Escape
sequences follow the JSON grammar; `\u` escapes combine surrogate pairs into
a single code point (a lone surrogate, representable in a JS string but not
as a Lean `Char`, makes the parse fail — a divergence confined to that
corner). -/
def parseStrBody : Nat → List Char → Option (List Char × List Char)
  | 0, _ => none
  | _, [] => none
  | fuel + 1, c :: rest =>
      if c == '"' then some ([], rest)
      else if c == '\\' then
        match rest with
        | [] => none
        | e :: rest2 =>
            let simple : Option Char :=
              if e == '"' then some '"'
              else if e == '\\' then some '\\'
              else if e == '/' then some '/'
              else if e == 'b' then some (Char.ofNat 8)
              else if e == 'f' then some (Char.ofNat 12)
              else if e == 'n' then some (Char.ofNat 10)
              else if e == 'r' then some (Char.ofNat 13)
              else if e == 't' then some (Char.ofNat 9)
              else none
            match simple with
            | some d =>
                match parseStrBody fuel rest2 with
                | some (cs, rest3) => some (d :: cs, rest3)
                | none => none
            | none =>
                if e == 'u' then
                  match rest2 with
                  | h1 :: h2 :: h3 :: h4 :: rest3 =>
                      match hexVal h1, hexVal h2, hexVal h3, hexVal h4 with
                      | some a, some b, some cc, some d =>
                          let n := ((a * 16 + b) * 16 + cc) * 16 + d
                          if 0xD800 ≤ n ∧ n ≤ 0xDBFF then
                            match rest3 with
                            | u1 :: u2 :: l1 :: l2 :: l3 :: l4 :: rest4 =>
                                if u1 == '\\' && u2 == 'u' then
                                  match hexVal l1, hexVal l2, hexVal l3, hexVal l4 with
                                  | some a2, some b2, some c2, some d2 =>
                                      let m := ((a2 * 16 + b2) * 16 + c2) * 16 + d2
                                      if 0xDC00 ≤ m ∧ m ≤ 0xDFFF then
                                        let cp := 0x10000 + (n - 0xD800) * 0x400 + (m - 0xDC00)
                                        match parseStrBody fuel rest4 with
                                        | some (cs, rest5) => some (Char.ofNat cp :: cs, rest5)
                                        | none => none
                                      else none
                                  | _, _, _, _ => none
                                else none
                            | _ => none
                          else if 0xDC00 ≤ n ∧ n ≤ 0xDFFF then none
                          else
                            match parseStrBody fuel rest3 with
                            | some (cs, rest4) => some (Char.ofNat n :: cs, rest4)
                            | none => none
                      | _, _, _, _ => none
                  | _ => none
                else none
      else if c.toNat < 0x20 then none
      else
        match parseStrBody fuel rest with
        | some (cs, rest2) => some (c :: cs, rest2)
        | none => none

/-- Parse a JSON number (after an optional leading minus handled by the
caller): integer part with no superfluous leading zero, optional fraction,
optional exponent.  Returns its exact rational value. -/
def parseNumTail (l : List Char) : Option (Rat × List Char) :=
  let intDigits := l.takeWhile Char.isDigit
  let rest0 := l.dropWhile Char.isDigit
  if intDigits = [] then none
  else if intDigits.length > 1 ∧ intDigits.head? = some '0' then none
  else
    let intVal : Nat := intDigits.foldl (fun a c => a * 10 + digitVal c) 0
    let (fracDigits, rest1) :=
      match rest0 with
      | '.' :: r =>
          (r.takeWhile Char.isDigit, r.dropWhile Char.isDigit)
      | _ => ([], rest0)
    if rest0.head? = some '.' ∧ fracDigits = [] then none
    else
      let mantissa : Nat := fracDigits.foldl (fun a c => a * 10 + digitVal c) intVal
      let expPart : Option (Int × List Char) :=
        match rest1 with
        | e :: r =>
            if e == 'e' || e == 'E' then
              let (sgn, r2) :=
                match r with
                | '+' :: r3 => ((1 : Int), r3)
                | '-' :: r3 => ((-1 : Int), r3)
                | _ => ((1 : Int), r)
              let eDigits := r2.takeWhile Char.isDigit
              if eDigits = [] then none
              else some (sgn * (eDigits.foldl (fun a c => a * 10 + digitVal c) 0 : Nat),
                         r2.dropWhile Char.isDigit)
            else some (0, rest1)
        | [] => some (0, rest1)
      match expPart with
      | none => none
      | some (ex, rest2) =>
          let e10 : Int := ex - fracDigits.length
          let q : Rat :=
            if 0 ≤ e10 then mkRat ((mantissa : Int) * 10 ^ e10.toNat) 1
            else mkRat (mantissa : Int) (10 ^ (-e10).toNat)
          some (q, rest2)

mutual

/-- Parse one JSON value (after leading whitespace has been skipped),
returning it and the remaining input.  Fuel-bounded; every recursive call
consumes at least one character, so fuel `length + 1` suffices. -/
def parseVal : Nat → List Char → Option (JsonVal × List Char)
  | 0, _ => none
  | fuel + 1, l =>
      match l with
      | [] => none
      | c :: rest =>
          if c == '"' then
            match parseStrBody (fuel + 1) rest with
            | some (cs, rest2) => some (.str (String.mk cs), rest2)
            | none => none
          else if c == 'n' then
            match rest with
            | 'u' :: 'l' :: 'l' :: rest2 => some (.null, rest2)
            | _ => none
          else if c == 't' then
            match rest with
            | 'r' :: 'u' :: 'e' :: rest2 => some (.boolean true, rest2)
            | _ => none
          else if c == 'f' then
            match rest with
            | 'a' :: 'l' :: 's' :: 'e' :: rest2 => some (.boolean false, rest2)
            | _ => none
          else if c == '-' then
            match parseNumTail rest with
            | some (q, rest2) => some (.num (-q), rest2)
            | none => none
          else if c.isDigit then
            match parseNumTail l with
            | some (q, rest2) => some (.num q, rest2)
            | none => none
          else if c == '[' then
            match (rest.dropWhile isJsonWs) with
            | ']' :: rest2 => some (.arr [], rest2)
            | _ => parseArrItems fuel (rest.dropWhile isJsonWs) []
          else if c.toNat == 0x7b then
            match (rest.dropWhile isJsonWs) with
            | c2 :: rest2 =>
                if c2.toNat == 0x7d then some (.obj [], rest2)
                else parseObjItems fuel (rest.dropWhile isJsonWs) []
            | [] => none
          else none

/-- Parse the elements of a JSON array after `[` (at least one element). -/
def parseArrItems : Nat → List Char → List JsonVal → Option (JsonVal × List Char)
  | 0, _, _ => none
  | fuel + 1, l, acc =>
      match parseVal fuel (l.dropWhile isJsonWs) with
      | none => none
      | some (v, rest) =>
          match rest.dropWhile isJsonWs with
          | ']' :: rest2 => some (.arr (acc ++ [v]), rest2)
          | ',' :: rest2 => parseArrItems fuel rest2 (acc ++ [v])
          | _ => none

/-- Parse the members of a JSON object after an opening brace (at least one
member). -/
def parseObjItems : Nat → List Char → List (String × JsonVal) → Option (JsonVal × List Char)
  | 0, _, _ => none
  | fuel + 1, l, acc =>
      match l.dropWhile isJsonWs with
      | c :: rest =>
          if c == '"' then
            match parseStrBody fuel rest with
            | none => none
            | some (kcs, rest2) =>
                match rest2.dropWhile isJsonWs with
                | ':' :: rest3 =>
                    match parseVal fuel (rest3.dropWhile isJsonWs) with
                    | none => none
                    | some (v, rest4) =>
                        match rest4.dropWhile isJsonWs with
                        | ',' :: rest5 =>
                            parseObjItems fuel rest5 (acc ++ [(String.mk kcs, v)])
                        | c2 :: rest5 =>
                            if c2.toNat == 0x7d then
                              some (.obj (acc ++ [(String.mk kcs, v)]), rest5)
                            else none
                        | [] => none
                | _ => none
          else none
      | [] => none

end

/-- Model of `JSON.parse`: parse one value surrounded by optional JSON
whitespace; anything else fails (JS raises `SyntaxError`, modeled as
`none`). -/
def jsonParse (s : String) : Option JsonVal :=
  match parseVal (s.length + 1) (s.data.dropWhile isJsonWs) with
  | some (v, rest) => if rest.dropWhile isJsonWs = [] then some v else none
  | none => none

/-- An answer choice (`types.ts: MCQOption`).  `text` carries the raw runtime
value taken from the service response (the source's string type annotation is
not enforced at runtime on every path). -/
structure MCQOption where
  id : String
  text : JsonVal

/-- A flashcard (`types.ts: FlashcardMCQ`).  `question` likewise carries the
raw runtime value assigned from the response item. -/
structure FlashcardMCQ where
  id : String
  question : JsonVal
  options : List MCQOption
  correctOptionId : String
  topic : Option String
  explanation : Option String
  sourcePdfName : Option String

/-- Whether a runtime value is `null` (property access on it raises a
`TypeError`). -/
def isNull : JsonVal → Bool
  | .null => true
  | _ => false

/-- JS property access `v[k]` for the fields used by the pipeline: defined on
objects (with later duplicate keys shadowing earlier ones, as after
`JSON.parse`), `undefined` (= `none`) on every other non-null value.  Access
on `null` raises and is handled separately by the callers. -/
def getField (v : JsonVal) (k : String) : Option JsonVal :=
  match v with
  | .obj kvs => (kvs.reverse.find? (fun kv => kv.1 = k)).map (fun kv => kv.2)
  | _ => none

/-- JS truthiness of a possibly-undefined value. -/
def truthy : Option JsonVal → Bool
  | none => false
  | some (.str s) => s ≠ ""
  | some (.num q) => q ≠ 0
  | some (.boolean b) => b
  | some .null => false
  | some (.arr _) => true
  | some (.obj _) => true

/-- Whether a runtime value is a string (`typeof v === 'string'`). -/
def isStr : JsonVal → Bool
  | .str _ => true
  | _ => false

/-- The per-item validation of `extractMCQsFromPDF` (lines 283–290): the item
is kept unless `!item.question`, or `options` is not an array, or some
option is not a string, or `correctOptionIndex` is not a number, or it is
`< 0` or `>= options.length`.  (Property access on a `null` item raises and
is modeled separately in the loop.) -/
def itemValid (item : JsonVal) : Bool :=
  match getField item "options", getField item "correctOptionIndex" with
  | some (.arr os), some (.num q) =>
      truthy (getField item "question") && os.all isStr &&
      decide (0 ≤ q) && decide (q < (os.length : Rat))
  | _, _ => false

/-- `options.map(optText => ({ id: crypto.randomUUID(), text: optText }))`:
generate one fresh identifier per option, in order; `gen` is the
unique-identifier generator and `c` the index of the next fresh identifier.
Returns the options and the next fresh index. -/
def genOptions (gen : Nat → String) (c : Nat) : List JsonVal → List MCQOption × Nat
  | [] => ([], c)
  | t :: ts =>
      (⟨gen c, t⟩ :: (genOptions gen (c + 1) ts).1, (genOptions gen (c + 1) ts).2)

/-- JS array indexing `arr[q]` for a numeric index: the element when `q` is
an integer within bounds, otherwise `undefined` (= `none`). -/
def jsIndex (os : List MCQOption) (q : Rat) : Option MCQOption :=
  if q.den = 1 ∧ 0 ≤ q.num ∧ q.num < (os.length : Int) then os[q.num.toNat]? else none

/-- `field?.trim() || undefined`: absent or `null` gives `undefined`; a string
is trimmed, with the empty result collapsed to `undefined`; any other value
raises (`.trim` is not a function), modeled as `.error`. -/
def normOptField : Option JsonVal → Except Unit (Option String)
  | none => .ok none
  | some .null => .ok none
  | some (.str s) => .ok (if jsTrim s = "" then none else some (jsTrim s))
  | some _ => .error ()

/-- Promotion of a validated item to a `FlashcardMCQ` (lines 295–307):
fresh identifiers for each option then for the card, `correctOptionId` via
`mcqOptions[item.correctOptionIndex].id` (which raises when the in-range
number is not an integer), and normalization of `explanation` and `topic`.
Returns the card and the next fresh-identifier index, or `.error` when a
raising step is reached. -/
def promoteItem (gen : Nat → String) (c : Nat) (item : JsonVal) :
    Except Unit (FlashcardMCQ × Nat) :=
  match getField item "options", getField item "correctOptionIndex" with
  | some (.arr os), some (.num q) =>
      let mcqOptions := (genOptions gen c os).1
      let cardId := gen (genOptions gen c os).2
      match jsIndex mcqOptions q with
      | none => .error ()
      | some copt =>
          match normOptField (getField item "explanation"),
                normOptField (getField item "topic") with
          | .ok ex, .ok tp =>
              .ok ({ id := cardId
                     question := (getField item "question").getD .null
                     options := mcqOptions
                     correctOptionId := copt.id
                     topic := tp
                     explanation := ex
                     sourcePdfName := none }, (genOptions gen c os).2 + 1)
          | _, _ => .error ()
  | _, _ => .error ()

/-- Error classification of `extractMCQsFromPDF` (§7 of the spec):
`cancelled` = `AbortError`; `malformedResponse` = JSON parse failure;
`unexpectedShape` = parsed value not an array; `other` = any other raised
error (wrapped by the outer catch). -/
inductive ExtErr where
  | cancelled
  | malformedResponse
  | unexpectedShape
  | other
  deriving DecidableEq

/-- The per-element loop of `extractMCQsFromPDF` (lines 278–309) with the
cooperative cancellation signal.  `signal` is read once per iteration (line
280); `t` counts signal observations so far, so observation `t` reads
`signal t`, and the returned counter is the total number of observations
performed.  A triggered signal aborts with `cancelled`; a `null` item or a
raising promotion aborts the whole batch with `other`; an item failing
validation is skipped; a promoted card is accumulated in order. -/
def loopItems (signal : Nat → Bool) (gen : Nat → String) :
    Nat → Nat → List FlashcardMCQ → List JsonVal →
    Except ExtErr (List FlashcardMCQ) × Nat
  | t, _, acc, [] => (.ok acc.reverse, t)
  | t, c, acc, item :: rest =>
      if signal t then (.error .cancelled, t + 1)
      else if isNull item then (.error .other, t + 1)
      else if itemValid item then
        match promoteItem gen c item with
        | .ok (card, cNext) => loopItems signal gen (t + 1) cNext (card :: acc) rest
        | .error _ => (.error .other, t + 1)
      else loopItems signal gen (t + 1) c acc rest

/-- The response-processing tail of `extractMCQsFromPDF` (lines 255–309):
strip the optional fence, parse, require an array, run the loop. -/
def parseAndLoop (signal : Nat → Bool) (gen : Nat → String) (t c : Nat)
    (respText : String) : Except ExtErr (List FlashcardMCQ) × Nat :=
  match jsonParse (stripAndTrim respText) with
  | none => (.error .malformedResponse, t)
  | some (.arr items) => loopItems signal gen t c [] items
  | some _ => (.error .unexpectedShape, t)

/-- `extractMCQsFromPDF` restricted to its pure response-processing part
(no cancellation signal): what the function computes from the service's
response text. -/
def extractCore (gen : Nat → String) (c : Nat) (respText : String) :
    Except ExtErr (List FlashcardMCQ) :=
  (parseAndLoop (fun _ => false) gen 0 c respText).1

/-- The whole of `extractMCQsFromPDF` (lines 181–324) with its cancellation
checkpoints, numbered in source order: the check before any work (line 186),
the check at `readFileAsBase64` entry (line 68), the abort listener during
the read (lines 75–80), the check after the read (line 201), and the check
after the service call returns (line 251); then the per-element loop.
`fileRead` is the outcome of reading the document (its non-abort failure
raises), `respText` the service's response text. -/
def extractRun (signal : Nat → Bool) (gen : Nat → String) (t0 c : Nat)
    (fileRead : Except Unit String) (respText : String) :
    Except ExtErr (List FlashcardMCQ) × Nat :=
  if signal t0 then (.error .cancelled, t0 + 1)
  else if signal (t0 + 1) then (.error .cancelled, t0 + 2)
  else if signal (t0 + 2) then (.error .cancelled, t0 + 3)
  else
    match fileRead with
    | .error _ => (.error .other, t0 + 3)
    | .ok _ =>
        if signal (t0 + 3) then (.error .cancelled, t0 + 4)
        else if signal (t0 + 4) then (.error .cancelled, t0 + 5)
        else parseAndLoop signal gen (t0 + 5) c respText

/-- `{ ...card, sourcePdfName: file.name }` in `App.tsx`. -/
def tagSource (name : String) (c : FlashcardMCQ) : FlashcardMCQ :=
  { c with sourcePdfName := some name }

/-- The orchestration in `App.tsx`'s `handlePdfFileSelected`: on a successful
non-empty extraction the tagged cards are appended to the store; on an empty
extraction or any error (including cancellation) the store is untouched. -/
def handleImport (st : List FlashcardMCQ) (name : String)
    (res : Except ExtErr (List FlashcardMCQ)) : List FlashcardMCQ :=
  match res with
  | .ok cards => if cards.length > 0 then st ++ cards.map (tagSource name) else st
  | .error _ => st

/-- Error classification of `generateMCQWithGemini`: `invalidResult` is the
"Invalid response structure" rejection (lines 149–158); `malformedResponse`
is the "Failed to parse response from AI" rejection (lines 142–146); `other`
is any other raised error. -/
inductive GenErr where
  | invalidResult
  | malformedResponse
  | other
  deriving DecidableEq

/-- The `Partial<FlashcardMCQ>` built by `generateMCQWithGemini` (no card
identifier; `topic` carries the raw runtime value of
`generatedData.topic || topic`). -/
structure GenCard where
  question : JsonVal
  options : List MCQOption
  correctOptionId : String
  topic : JsonVal
  explanation : Option String

/-- `generateMCQWithGemini` from its parsed response value (lines 149–171):
rejects with `invalidResult` unless `question` is truthy, `options` is an
array of length exactly `numOptions`, and `correctOptionIndex` is a number
in `[0, numOptions)`; then promotes, raising (`other`) on a non-integral
index or a non-string non-null `explanation`.  Note the option elements are
not checked to be strings here, unlike the PDF batch path. -/
def generateOneFromItem (gen : Nat → String) (c : Nat) (topicArg : String)
    (numOptions : Nat) (item : JsonVal) : Except GenErr GenCard :=
  if isNull item then .error .other
  else
      match getField item "options" with
      | some (.arr os) =>
          match getField item "correctOptionIndex" with
          | some (.num q) =>
              if truthy (getField item "question") && decide (os.length = numOptions) &&
                 decide (0 ≤ q) && decide (q < (numOptions : Rat)) then
                let mcqOptions := (genOptions gen c os).1
                match jsIndex mcqOptions q with
                | none => .error .other
                | some copt =>
                    match normOptField (getField item "explanation") with
                    | .error _ => .error .other
                    | .ok ex =>
                        .ok { question := (getField item "question").getD .null
                              options := mcqOptions
                              correctOptionId := copt.id
                              topic := if truthy (getField item "topic") then
                                         (getField item "topic").getD .null
                                       else .str topicArg
                              explanation := ex }
              else .error .invalidResult
          | _ => .error .invalidResult
      | _ => .error .invalidResult

/-- The response-text pipeline of `generateMCQWithGemini` (lines 132–157):
trim the raw text, strip the optional surrounding code fence (the same
stripping code as the PDF path), parse the stripped text as JSON (parse
failure raises the parse-failure error), then validate and promote the
parsed object. -/
def generateOneCore (gen : Nat → String) (c : Nat) (topicArg : String)
    (numOptions : Nat) (respText : String) : Except GenErr GenCard :=
  match jsonParse (stripAndTrim respText) with
  | none => .error .malformedResponse
  | some item => generateOneFromItem gen c topicArg numOptions item

/-- `useFlashcards`' initial-state loader (lines 14–22): absent key or empty
stored string gives `[]`; a raising read or unparseable JSON is caught and
gives `[]`; otherwise the parsed value is returned as-is (no validation that
it is an array of cards).  `getRes` is the outcome of
`localStorage.getItem`. -/
def loadFlashcards (getRes : Except Unit (Option String)) : JsonVal :=
  match getRes with
  | .error _ => .arr []
  | .ok none => .arr []
  | .ok (some s) =>
      if s = "" then .arr []
      else
        match jsonParse s with
        | none => .arr []
        | some v => v

/-- `addFlashcard`: append (line 33). -/
def addFlashcard (card : FlashcardMCQ) (prev : List FlashcardMCQ) : List FlashcardMCQ :=
  prev ++ [card]

/-- `updateFlashcard` (line 37):
`prev.map(card => card.id === updatedCard.id ? updatedCard : card)`. -/
def updateFlashcard (updatedCard : FlashcardMCQ) (prev : List FlashcardMCQ) :
    List FlashcardMCQ :=
  prev.map (fun card => if card.id = updatedCard.id then updatedCard else card)

/-- `deleteFlashcard` (line 41): `prev.filter(card => card.id !== id)`. -/
def deleteFlashcard (i : String) (prev : List FlashcardMCQ) : List FlashcardMCQ :=
  prev.filter (fun card => card.id ≠ i)

/-- Bulk append of an import batch (`App.tsx`:
`setFlashcards(prev => [...prev, ...newFlashcardsWithSource])`). -/
def bulkAppend (cards : List FlashcardMCQ) (prev : List FlashcardMCQ) :
    List FlashcardMCQ :=
  prev ++ cards

/-- A CardStore mutation. -/
inductive StoreOp where
  | add (card : FlashcardMCQ)
  | updateCard (card : FlashcardMCQ)
  | del (i : String)
  | bulk (cards : List FlashcardMCQ)

/-- The in-memory effect of a mutation on the collection. -/
def applyOp : StoreOp → List FlashcardMCQ → List FlashcardMCQ
  | .add card => addFlashcard card
  | .updateCard card => updateFlashcard card
  | .del i => deleteFlashcard i
  | .bulk cards => bulkAppend cards

/-- The store's state: the in-memory collection plus the last successfully
persisted collection (`localStorage` contents). -/
structure StoreState where
  cards : List FlashcardMCQ
  persisted : Option (List FlashcardMCQ)

/-- One mutation followed by the persistence effect (lines 24–30): the state
update always lands in memory; the synchronous write then either succeeds or
raises, and a raising write is caught and logged, leaving the previously
persisted value in place.  `persistOk` is whether the write succeeds.  The
function is total: no failure is ever surfaced to the caller. -/
def runOp (op : StoreOp) (persistOk : Bool) (st : StoreState) : StoreState :=
  let newCards := applyOp op st.cards
  { cards := newCards
    persisted := if persistOk then some newCards else st.persisted }

/-- The non-empty source names of the collection, in collection order
(`App.tsx` lines 31–39: `if (card.sourcePdfName) sources.add(...)`). -/
def sourceNames (cards : List FlashcardMCQ) : List String :=
  cards.filterMap (fun card =>
    match card.sourcePdfName with
    | some s => if s = "" then none else some s
    | none => none)

/-- First-occurrence deduplication, as performed by inserting into a JS
`Set` and reading it back in insertion order. -/
def dedupGo (seen : List String) : List String → List String
  | [] => []
  | x :: xs => if x ∈ seen then dedupGo seen xs else x :: dedupGo (x :: seen) xs

/-- Sorted insertion of a string into a list. -/
def insortStr (s : String) : List String → List String
  | [] => [s]
  | x :: xs => if s ≤ x then s :: x :: xs else x :: insortStr s xs

/-- Insertion sort, modeling the default lexicographic `Array.sort()`. -/
def sortStr (l : List String) : List String := l.foldr insortStr []

/-- `uniquePdfSources` (`App.tsx` lines 31–39): collect the truthy source
names into a `Set`, then sort the distinct names. -/
def uniquePdfSources (cards : List FlashcardMCQ) : List String :=
  sortStr (dedupGo [] (sourceNames cards))

/-- A concrete injective identifier generator used to instantiate theorems
with hypotheses at closed values. -/
def genDemo (n : Nat) : String := String.mk (List.replicate n 'a')

/-- Promotion of a whole already-filtered batch, threading the fresh-identifier
index exactly as the loop does (skipped items consume no identifiers, so the
loop's surviving items are promoted with these same indices). -/
def promoteList (gen : Nat → String) (c : Nat) : List JsonVal → Except Unit (List FlashcardMCQ)
  | [] => .ok []
  | item :: rest =>
      match promoteItem gen c item with
      | .ok (card, cNext) => (promoteList gen cNext rest).map (fun cs => card :: cs)
      | .error e => .error e

/-- The per-item validation as the CLAIM words it (spec §4.2 step 8, claim C1):
`question` a non-empty string, `options` a sequence whose elements are all
actual strings, `correctOptionIndex` an integer in `[0, options.length)`.
This follows the spec's words, not the source, and is compared against the
source's `itemValid`. -/
def specItemValid (item : JsonVal) : Bool :=
  (match getField item "question" with
   | some (.str s) => s ≠ ""
   | _ => false) &&
  (match getField item "options" with
   | some (.arr os) => os.all isStr
   | _ => false) &&
  (match getField item "options", getField item "correctOptionIndex" with
   | some (.arr os), some (.num q) =>
       q.den = 1 && decide (0 ≤ q.num) && decide (q.num < (os.length : Int))
   | _, _ => false)

/-- The claim C1 example batch: two records, the second with an empty
question. -/
def c1ExampleText : String :=
  "[\x7b\"question\":\"Q1\",\"options\":[\"A\",\"B\"],\"correctOptionIndex\":0\x7d, \x7b\"question\":\"\",\"options\":[\"A\",\"B\"],\"correctOptionIndex\":0\x7d]"

/-- A batch whose single record has the number `5` as its question: not a
non-empty string, but truthy. -/
def c1BadText : String :=
  "[\x7b\"question\":5,\"options\":[\"A\",\"B\"],\"correctOptionIndex\":0\x7d]"

/-- A batch whose single record has one option, with empty text. -/
def c4Text : String :=
  "[\x7b\"question\":\"Q\",\"options\":[\"\"],\"correctOptionIndex\":0\x7d]"

/-- A response text that is itself a fenced JSON array. -/
def tFence : String := "```" ++ "\n" ++ "[1]" ++ "\n" ++ "```"

/-- Wrapping a response text in a surrounding triple-backtick code fence. -/
def wrapFence (t : String) : String := "```" ++ "\n" ++ t ++ "\n" ++ "```"

/-- The card extracted from `c1ExampleText`'s surviving record when the
identifier generator is `gen` and the fresh-identifier index starts at 0:
option identifiers `gen 0`/`gen 1`, card identifier `gen 2`, correct option
`gen 0` (the option with text `"A"`). -/
def c1ExampleCard (gen : Nat → String) : FlashcardMCQ :=
  ⟨gen 2, .str "Q1", [⟨gen 0, .str "A"⟩, ⟨gen 1, .str "B"⟩], gen 0, none, none, none⟩

/-- `c1ExampleCard` at the demo generator. -/
def demoCard : FlashcardMCQ := c1ExampleCard genDemo

/-- A cancellation signal that triggers from the third observation on. -/
def sigDemo (t : Nat) : Bool := decide (2 ≤ t)

/-- The parsed response object of claim C9's instance: a 3-option object
requested with `optionCount = 4`. -/
def c9Fields : List (String × JsonVal) :=
  [("question", .str "Q"),
   ("options", .arr [.str "A", .str "B", .str "C"]),
   ("correctOptionIndex", .num 0)]

/-- A minimal card constructor for concrete store scenarios. -/
def mkCard (i : String) (q : JsonVal) (src : Option String) : FlashcardMCQ :=
  ⟨i, q, [], "", none, none, src⟩

/-- Two distinct cards sharing the identifier `"a"` (a collection the claim
C6 quantifies over but the source does not expect), and an update for that
identifier. -/
def dupA1 : FlashcardMCQ := mkCard "a" (.str "P") none

/-- Second card with the duplicated identifier (see `dupA1`). -/
def dupA2 : FlashcardMCQ := mkCard "a" (.str "B") none

/-- The updating card for identifier `"a"` (see `dupA1`). -/
def updA : FlashcardMCQ := mkCard "a" (.str "X") none

/-- A concrete collection exercising the source index: duplicate source,
absent source, empty source. -/
def c10Cards : List FlashcardMCQ :=
  [mkCard "1" (.str "q") (some "b.pdf"), mkCard "2" (.str "q") none,
   mkCard "3" (.str "q") (some "a.pdf"), mkCard "4" (.str "q") (some "b.pdf"),
   mkCard "5" (.str "q") (some "")]

/-- The parsed value of `c1ExampleText`. -/
def c1ExampleItems : List JsonVal :=
  [.obj [("question", .str "Q1"), ("options", .arr [.str "A", .str "B"]),
         ("correctOptionIndex", .num 0)],
   .obj [("question", .str ""), ("options", .arr [.str "A", .str "B"]),
         ("correctOptionIndex", .num 0)]]

/-- The parsed value of `c4Text`. -/
def c4Items : List JsonVal :=
  [.obj [("question", .str "Q"), ("options", .arr [.str ""]),
         ("correctOptionIndex", .num 0)]]

/-- The card the import loop promotes from `c4Items` with the demo
generator. -/
def c4Card : FlashcardMCQ :=
  ⟨genDemo 1, .str "Q", [⟨genDemo 0, .str ""⟩], genDemo 0, none, none, none⟩

/-! ## Theorems -/

/-- Claim C8 (confirmed): for every CardStore mutating operation, a failing
synchronous persistence write leaves the in-memory collection holding the
mutation (identical to the collection after a successful write, not rolled
back) and leaves the previously persisted value untouched; `runOp` is total,
so no `StorageFailure` ever propagates to the caller. -/
theorem c8_store_absorbs_persist_failure (op : StoreOp) (st : StoreState) :
    (runOp op false st).cards = applyOp op st.cards ∧
    (runOp op false st).cards = (runOp op true st).cards ∧
    (runOp op false st).persisted = st.persisted ∧
    (runOp op true st).persisted = some (applyOp op st.cards) :=
  ⟨rfl, rfl, rfl, rfl⟩

/-- Claim C9 (confirmed): `generateMCQWithGemini`, given a response object
whose `options` is an array of length different from `optionCount`, or whose
`correctOptionIndex` is a number outside `[0, optionCount)`, fails with
`InvalidResult`. -/
theorem c9_generate_invalid_result (gen : Nat → String) (c : Nat)
    (topicArg : String) (n : Nat) (kvs : List (String × JsonVal))
    (hbad : (∃ os, getField (.obj kvs) "options" = some (.arr os) ∧ os.length ≠ n) ∨
            (∃ q, getField (.obj kvs) "correctOptionIndex" = some (.num q) ∧
                  (q < 0 ∨ (n : Rat) ≤ q))) :
    generateOneFromItem gen c topicArg n (.obj kvs) = .error .invalidResult := by
  unfold generateOneFromItem
  rw [show isNull (JsonVal.obj kvs) = false from rfl]
  simp only [Bool.false_eq_true, if_false]
  split
  · next os heq =>
    split
    · next q heq2 =>
      have hcond : (truthy (getField (.obj kvs) "question") && decide (os.length = n) &&
          decide (0 ≤ q) && decide (q < (n : Rat))) = false := by
        rcases hbad with ⟨os2, h1, h2⟩ | ⟨q2, h1, h2⟩
        · rw [heq] at h1
          have : os2 = os := by
            injection h1 with h1a
            injection h1a with h1b
            exact h1b.symm
          subst this
          simp [h2]
        · rw [heq2] at h1
          have : q2 = q := by
            injection h1 with h1a
            injection h1a with h1b
            exact h1b.symm
          subst this
          rcases h2 with h2 | h2
          · simp [not_le.mpr h2]
          · simp [not_lt.mpr h2]
      rw [hcond]
      rfl
    · rfl
  · next heq =>
    rcases hbad with ⟨os2, h1, _⟩ | _
    · exact absurd h1 (heq os2)
    · rfl

/-- Witness for C9: the claim's instance — a 3-option response object for
`generateOne("Photosynthesis", 4)` fails with `InvalidResult`. -/
theorem c9_witness :
    generateOneFromItem genDemo 0 "Photosynthesis" 4 (.obj c9Fields) =
      .error .invalidResult :=
  c9_generate_invalid_result genDemo 0 "Photosynthesis" 4 c9Fields
    (.inl ⟨[.str "A", .str "B", .str "C"], rfl, by decide⟩)

/-- Counterexample to claim C3: the stored string (an empty JSON object) is
valid JSON but not a card collection, so the claim requires `load` to return
the empty collection; the code instead returns the parsed object as-is. -/
theorem c3_counterexample :
    loadFlashcards (.ok (some "\x7b\x7d")) = .obj [] ∧
    (JsonVal.obj [] = JsonVal.arr [] → False) :=
  ⟨rfl, fun h => JsonVal.noConfusion h⟩

/-- Claim C3 (amended): `load` never raises (it is a total function); it
returns the empty collection whenever the stored value is absent, the empty
string, the read raises, or the value is not parseable JSON; but whenever the
stored string parses as any JSON value, that value is returned verbatim,
without validating that it is a card collection. -/
theorem c3_amended (getRes : Except Unit (Option String)) (s : String)
    (v : JsonVal) :
    (jsonParse s = some v → loadFlashcards (.ok (some s)) = v) ∧
    ((∀ s2, getRes = .ok (some s2) → jsonParse s2 = none) →
       loadFlashcards getRes = .arr []) := by
  constructor
  · intro h
    by_cases hs : s = ""
    · subst hs
      rw [show jsonParse "" = none from rfl] at h
      exact absurd h (by simp)
    · show (if s = "" then JsonVal.arr []
            else match jsonParse s with
                 | none => JsonVal.arr []
                 | some v2 => v2) = v
      rw [if_neg hs, h]
  · intro h
    match getRes with
    | .error _ => rfl
    | .ok none => rfl
    | .ok (some s2) =>
      show (if s2 = "" then JsonVal.arr []
            else match jsonParse s2 with
                 | none => JsonVal.arr []
                 | some v2 => v2) = JsonVal.arr []
      by_cases hs : s2 = ""
      · rw [if_pos hs]
      · rw [if_neg hs, h s2 rfl]

/-- Witness for C3 (amended): a stored `"[]"` loads as the empty array. -/
theorem c3_witness : loadFlashcards (.ok (some "[]")) = .arr [] :=
  (c3_amended (.ok (some "[]")) "[]" (.arr [])).1 rfl

/-- Counterexample to claim C6: on a collection holding two cards with the
same identifier, `update` replaces both (its `map` replaces every match),
while the claim requires all cards other than the first match to be
unchanged — the second card's question `"B"` is overwritten with `"X"`. -/
theorem c6_counterexample :
    (updateFlashcard updA [dupA1, dupA2]).map (fun card => card.question) =
      [.str "X", .str "X"] ∧
    dupA2.question = .str "B" ∧
    (JsonVal.str "X" = JsonVal.str "B" → False) :=
  ⟨rfl, rfl, fun h => by injection h with h2; exact absurd h2 (by decide)⟩

/-- Claim C6 (amended): `update` replaces every element whose identifier
equals the updated card's (hence, when identifiers are unique, exactly the
one match, in place); the collection length is unchanged, every non-matching
card is unchanged at its position, and when nothing matches the collection is
returned entirely unchanged (a silent no-op, not a failure). -/
theorem c6_amended (u : FlashcardMCQ) (cards : List FlashcardMCQ) :
    (updateFlashcard u cards).length = cards.length ∧
    (∀ (i : Nat) (card : FlashcardMCQ), cards[i]? = some card →
       (updateFlashcard u cards)[i]? = some (if card.id = u.id then u else card)) ∧
    ((∀ card ∈ cards, card.id ≠ u.id) → updateFlashcard u cards = cards) := by
  refine ⟨List.length_map _ _, ?_, ?_⟩
  · intro i card h
    simp only [updateFlashcard, List.getElem?_map, h, Option.map_some']
  · intro h
    unfold updateFlashcard
    conv_rhs => rw [← List.map_id cards]
    exact List.map_congr_left fun a ha => by rw [if_neg (h a ha)]; rfl

/-- Witness for C6 (amended): updating the duplicated collection replaces the
card at position 0. -/
theorem c6_witness : (updateFlashcard updA [dupA1, dupA2])[0]? = some updA := by
  have h := (c6_amended updA [dupA1, dupA2]).2.1 0 dupA1 rfl
  simpa using h

theorem genOptions_fst_length (gen : Nat → String) :
    ∀ (os : List JsonVal) (c : Nat), ((genOptions gen c os).1).length = os.length := by
  intro os
  induction os with
  | nil => intro c; rfl
  | cons t ts ih => intro c; simp [genOptions, ih]

theorem genOptions_ids (gen : Nat → String) :
    ∀ (os : List JsonVal) (c : Nat),
      ((genOptions gen c os).1).map (fun o => o.id) = (List.range' c os.length).map gen := by
  intro os
  induction os with
  | nil => intro c; rfl
  | cons t ts ih =>
    intro c
    simp [genOptions, List.range'_succ, ih]

theorem genOptions_texts (gen : Nat → String) :
    ∀ (os : List JsonVal) (c : Nat),
      ((genOptions gen c os).1).map (fun o => o.text) = os := by
  intro os
  induction os with
  | nil => intro c; rfl
  | cons t ts ih => intro c; simp [genOptions, ih]

theorem jsIndex_some_elim (os : List MCQOption) (q : Rat) (copt : MCQOption)
    (h : jsIndex os q = some copt) :
    os[q.num.toNat]? = some copt ∧ q.den = 1 ∧ 0 ≤ q.num ∧ q.num < (os.length : Int) := by
  unfold jsIndex at h
  split at h
  · next hc => exact ⟨h, hc⟩
  · exact absurd h (by simp)

theorem promoteItem_ok_elim (gen : Nat → String) (c : Nat) (item : JsonVal)
    (card : FlashcardMCQ) (cNext : Nat)
    (hp : promoteItem gen c item = .ok (card, cNext)) :
    ∃ os q copt,
      getField item "options" = some (.arr os) ∧
      getField item "correctOptionIndex" = some (.num q) ∧
      card.options = (genOptions gen c os).1 ∧
      jsIndex (genOptions gen c os).1 q = some copt ∧
      card.correctOptionId = copt.id := by
  unfold promoteItem at hp
  split at hp
  · next os q heq1 heq2 =>
    dsimp only at hp
    rcases hidx : jsIndex (genOptions gen c os).1 q with _ | copt
    · simp only [hidx] at hp
      exact absurd hp (by simp)
    · simp only [hidx] at hp
      rcases hex : normOptField (getField item "explanation") with u | ex
      · simp only [hex] at hp
        exact absurd hp (by simp)
      · rcases htp : normOptField (getField item "topic") with u2 | tp
        · simp only [hex, htp] at hp
          exact absurd hp (by simp)
        · simp only [hex, htp, Except.ok.injEq, Prod.mk.injEq] at hp
          obtain ⟨hcard, -⟩ := hp
          exact ⟨os, q, copt, heq1, heq2, by rw [← hcard], hidx, by rw [← hcard]⟩
  · exact absurd hp (by simp)

theorem itemValid_elim (item : JsonVal) (os : List JsonVal) (q : Rat)
    (heq1 : getField item "options" = some (.arr os))
    (heq2 : getField item "correctOptionIndex" = some (.num q))
    (hv : itemValid item = true) :
    truthy (getField item "question") = true ∧ os.all isStr = true ∧
      0 ≤ q ∧ q < (os.length : Rat) := by
  unfold itemValid at hv
  rw [heq1, heq2] at hv
  simp only [Bool.and_eq_true, decide_eq_true_eq] at hv
  exact ⟨hv.1.1.1, hv.1.1.2, hv.1.2, hv.2⟩

theorem loopItems_no_signal (gen : Nat → String) :
    ∀ (items : List JsonVal) (t c : Nat) (acc cards : List FlashcardMCQ),
      (∀ item ∈ items, isNull item = false) →
      promoteList gen c (items.filter itemValid) = .ok cards →
      loopItems (fun _ => false) gen t c acc items =
        (.ok (acc.reverse ++ cards), t + items.length) := by
  intro items
  induction items with
  | nil =>
    intro t c acc cards _ hok
    simp only [List.filter_nil, promoteList] at hok
    injection hok with h
    subst h
    simp [loopItems]
  | cons item rest ih =>
    intro t c acc cards hnull hok
    have hni : isNull item = false := hnull item (List.mem_cons_self _ _)
    by_cases hv : itemValid item = true
    · rw [List.filter_cons_of_pos hv] at hok
      unfold promoteList at hok
      rcases hp : promoteItem gen c item with e | pr
      · simp only [hp] at hok
        exact absurd hok (by simp)
      · obtain ⟨card, cNext⟩ := pr
        simp only [hp] at hok
        rcases hq : promoteList gen cNext (rest.filter itemValid) with e2 | cs
        · rw [hq] at hok
          exact absurd hok (by simp [Except.map])
        · rw [hq] at hok
          simp only [Except.map] at hok
          injection hok with h2
          subst h2
          have hrec := ih (t + 1) cNext (card :: acc) cs
            (fun it hit => hnull it (List.mem_cons_of_mem _ hit)) hq
          simp only [loopItems, hni, hv, hp, Bool.false_eq_true, if_false, if_true]
          rw [hrec]
          simp only [List.reverse_cons, List.append_assoc, List.singleton_append,
            List.length_cons]
          rw [show t + 1 + rest.length = t + (rest.length + 1) from by omega]
    · have hvf : itemValid item = false := by simpa using hv
      rw [List.filter_cons_of_neg (by simp [hvf])] at hok
      have hrec := ih (t + 1) c acc cards
        (fun it hit => hnull it (List.mem_cons_of_mem _ hit)) hok
      simp only [loopItems, hni, hvf, Bool.false_eq_true, if_false]
      rw [hrec, List.length_cons,
        show t + 1 + rest.length = t + (rest.length + 1) from by omega]

/-- Counterexample to claim C1: the stripped response text parses as a JSON
array whose single element has the number `5` as its question — not a
non-empty string, so the claim requires it to be skipped (an empty result);
the code's truthiness test `!item.question` accepts it and returns one
card. -/
theorem c1_counterexample :
    (jsonParse (stripAndTrim c1BadText)).map
        (fun v => match v with
                  | .arr items => (items.filter specItemValid).length
                  | _ => 0) = some 0 ∧
    (extractCore genDemo 0 c1BadText).map List.length = .ok 1 :=
  ⟨rfl, rfl⟩

set_option maxRecDepth 10000

/-- Claim C1 (amended): on a parsed response array none of whose elements is
`null`, and all of whose elements surviving the per-item check promote
without raising (integral in-range index, string-or-absent
explanation/topic), the extraction loop keeps exactly the elements accepted
by the source's check — question truthy (rather than "non-empty string"),
options an array of strings, `correctOptionIndex` a number in
`[0, options.length)` — promoted in source order; and on the claim's
two-record batch it returns exactly one card, with question `"Q1"` and
`correctOptionId` pointing at the option with text `"A"`. -/
theorem c1_amended (gen : Nat → String) (t c : Nat) (items : List JsonVal)
    (cards : List FlashcardMCQ)
    (hnull : ∀ item ∈ items, isNull item = false)
    (hok : promoteList gen c (items.filter itemValid) = .ok cards) :
    (loopItems (fun _ => false) gen t c [] items).1 = .ok cards ∧
    extractCore gen 0 c1ExampleText = .ok [c1ExampleCard gen] := by
  constructor
  · rw [loopItems_no_signal gen items t c [] cards hnull hok]
    simp
  · rfl

/-- Witness for C1 (amended), at the claim's two-record batch. -/
theorem c1_witness :
    (loopItems (fun _ => false) genDemo 0 0 [] c1ExampleItems).1 = .ok [demoCard] :=
  (c1_amended genDemo 0 0 c1ExampleItems [demoCard] (by decide) rfl).1

/-- Transport of a per-card property through the extraction loop: if every
successfully promoted valid item yields a card satisfying `P`, then every
card of a successful loop result satisfies `P`. -/
theorem loopItems_ok_forall (gen : Nat → String) (P : FlashcardMCQ → Prop)
    (hP : ∀ c item card cNext, itemValid item = true →
            promoteItem gen c item = .ok (card, cNext) → P card) :
    ∀ (items : List JsonVal) (signal : Nat → Bool) (t c : Nat)
      (acc res : List FlashcardMCQ),
      (∀ card ∈ acc, P card) →
      (loopItems signal gen t c acc items).1 = .ok res →
      ∀ card ∈ res, P card := by
  intro items
  induction items with
  | nil =>
    intro signal t c acc res hacc hok card hcard
    simp only [loopItems, Except.ok.injEq] at hok
    subst hok
    exact hacc card (List.mem_reverse.mp hcard)
  | cons item rest ih =>
    intro signal t c acc res hacc hok card hcard
    simp only [loopItems] at hok
    by_cases hs : signal t = true
    · simp only [hs, if_true] at hok
      exact absurd hok (by simp)
    · simp only [hs, Bool.false_eq_true, if_false] at hok
      by_cases hn : isNull item = true
      · simp only [hn, if_true] at hok
        exact absurd hok (by simp)
      · simp only [hn, Bool.false_eq_true, if_false] at hok
        by_cases hv : itemValid item = true
        · simp only [hv, if_true] at hok
          rcases hp : promoteItem gen c item with e | pr
          · rw [hp] at hok
            exact absurd hok (by simp)
          · obtain ⟨card2, cNext⟩ := pr
            rw [hp] at hok
            exact ih signal (t + 1) cNext (card2 :: acc) res
              (fun cardA hA => by
                rcases List.mem_cons.mp hA with h | h
                · subst h; exact hP c item cardA cNext hv hp
                · exact hacc cardA h)
              hok card hcard
        · simp only [hv, Bool.false_eq_true, if_false] at hok
          exact ih signal (t + 1) c acc res hacc hok card hcard

/-- Counterexample to claim C4: the import path promotes a record with a
single option whose text is the empty string; the resulting card violates
both claimed invariants (`options.length ≥ 2`, non-empty option text). -/
theorem c4_counterexample :
    (extractCore genDemo 0 c4Text).map (fun cs => cs.map (fun card => card.options.length)) =
      .ok [1] ∧
    (extractCore genDemo 0 c4Text).map
        (fun cs => cs.map (fun card => card.options.map (fun o => o.text))) =
      .ok [[.str ""]] ∧
    ¬ (2 : Nat) ≤ 1 :=
  ⟨rfl, rfl, by decide⟩

/-- Claim C4 (amended): a card promoted by the loop of `extractMCQsFromPDF`
is only guaranteed a non-empty options list, because the range check
`0 ≤ correctOptionIndex < options.length` forces a length of at least 1,
and its option texts are strings, possibly empty; neither a minimum of two
options nor non-empty option text is enforced on the import path. -/
theorem c4_amended (gen : Nat → String) (signal : Nat → Bool) (t c : Nat)
    (items : List JsonVal) (res : List FlashcardMCQ)
    (h : (loopItems signal gen t c [] items).1 = .ok res) :
    ∀ card ∈ res, 1 ≤ card.options.length ∧
      ∀ o ∈ card.options, isStr o.text = true := by
  refine loopItems_ok_forall gen _ ?_ items signal t c [] res (by simp) h
  intro c2 item card cNext hv hp
  obtain ⟨os, q, copt, heq1, heq2, hopts, hidx, -⟩ :=
    promoteItem_ok_elim gen c2 item card cNext hp
  obtain ⟨-, -, hpos, hrange⟩ := jsIndex_some_elim _ q copt hidx
  obtain ⟨-, hstr, -, -⟩ := itemValid_elim item os q heq1 heq2 hv
  constructor
  · rw [hopts]
    omega
  · intro o ho
    rw [hopts] at ho
    have : o.text ∈ os := by
      rw [← genOptions_texts gen os c2]
      exact List.mem_map_of_mem _ ho
    exact List.all_eq_true.mp hstr _ this

/-- Witness for C4 (amended), at the single-record single-option batch. -/
theorem c4_witness :
    1 ≤ c4Card.options.length ∧ ∀ o ∈ c4Card.options, isStr o.text = true :=
  c4_amended genDemo (fun _ => false) 0 0 c4Items [c4Card] rfl c4Card
    (List.mem_singleton.mpr rfl)

theorem genDemo_inj : Function.Injective genDemo := by
  intro a b h
  have h2 := congrArg String.data h
  simpa [genDemo] using congrArg List.length h2

theorem filter_id_count_one :
    ∀ (l : List MCQOption) (j : Nat) (copt : MCQOption),
      ((l.map (fun o => o.id)).Nodup) → l[j]? = some copt →
      (l.filter (fun o => o.id = copt.id)).length = 1 := by
  intro l
  induction l with
  | nil => intro j copt _ h; simp at h
  | cons x xs ih =>
    intro j copt hnd h
    simp only [List.map_cons, List.nodup_cons, List.mem_map] at hnd
    match j with
    | 0 =>
      simp only [List.getElem?_cons_zero, Option.some.injEq] at h
      subst h
      rw [List.filter_cons_of_pos (by simp)]
      have hrest : xs.filter (fun o => o.id = x.id) = [] := by
        rw [List.filter_eq_nil_iff]
        intro o ho
        simp only [decide_eq_true_eq]
        intro hoid
        exact hnd.1 ⟨o, ho, hoid⟩
      rw [hrest]
      rfl
    | j + 1 =>
      simp only [List.getElem?_cons_succ] at h
      have hmem : copt ∈ xs := by
        obtain ⟨hlt, heq⟩ := List.getElem?_eq_some.mp h
        exact heq ▸ List.getElem_mem hlt
      have hxid : ¬ x.id = copt.id := fun he => hnd.1 ⟨copt, hmem, he.symm⟩
      rw [List.filter_cons_of_neg (by simpa using hxid)]
      exact ih j copt hnd.2 h

theorem genOptions_ids_nodup (gen : Nat → String) (hinj : Function.Injective gen)
    (os : List JsonVal) (c : Nat) :
    ((genOptions gen c os).1.map (fun o => o.id)).Nodup := by
  rw [genOptions_ids]
  exact (List.nodup_range' _ _).map hinj

theorem promoteItem_unique (gen : Nat → String) (hinj : Function.Injective gen)
    (c : Nat) (item : JsonVal) (card : FlashcardMCQ) (cNext : Nat)
    (hp : promoteItem gen c item = .ok (card, cNext)) :
    (card.options.filter (fun o => o.id = card.correctOptionId)).length = 1 := by
  obtain ⟨os, q, copt, -, -, hopts, hidx, hcid⟩ :=
    promoteItem_ok_elim gen c item card cNext hp
  obtain ⟨hget, -, -, -⟩ := jsIndex_some_elim _ q copt hidx
  rw [hopts, hcid]
  exact filter_id_count_one _ _ _ (genOptions_ids_nodup gen hinj os c) hget

theorem generateOne_ok_elim (gen : Nat → String) (c : Nat) (topicArg : String)
    (n : Nat) (item : JsonVal) (gcard : GenCard)
    (hp : generateOneFromItem gen c topicArg n item = .ok gcard) :
    ∃ os q copt,
      gcard.options = (genOptions gen c os).1 ∧
      jsIndex (genOptions gen c os).1 q = some copt ∧
      gcard.correctOptionId = copt.id := by
  unfold generateOneFromItem at hp
  by_cases hn : isNull item = true
  · simp only [hn, if_true] at hp
    exact absurd hp (by simp)
  · have hnf : isNull item = false := by simpa using hn
    simp only [hnf, Bool.false_eq_true, if_false] at hp
    split at hp
    · next os heq1 =>
      split at hp
      · next q heq2 =>
        split at hp
        · rcases hidx : jsIndex (genOptions gen c os).1 q with _ | copt
          · simp only [hidx] at hp
            exact absurd hp (by simp)
          · simp only [hidx] at hp
            rcases hex : normOptField (getField item "explanation") with u | ex
            · simp only [hex] at hp
              exact absurd hp (by simp)
            · simp only [hex, Except.ok.injEq] at hp
              exact ⟨os, q, copt, by rw [← hp], hidx, by rw [← hp]⟩
        · exact absurd hp (by simp)
      · exact absurd hp (by simp)
    · exact absurd hp (by simp)

/-- Claim C5 (confirmed): under the hypothesis that the unique-identifier
generator is injective (globally unique identifiers), every card returned by
`extractMCQsFromPDF` and every partial card returned by
`generateMCQWithGemini` has exactly one option whose identifier equals the
card's `correctOptionId`. -/
theorem c5_unique_correct_option (gen : Nat → String)
    (hinj : Function.Injective gen) :
    (∀ (c : Nat) (respText : String) (res : List FlashcardMCQ),
       extractCore gen c respText = .ok res →
       ∀ card ∈ res,
         (card.options.filter (fun o => o.id = card.correctOptionId)).length = 1) ∧
    (∀ (c : Nat) (topicArg : String) (n : Nat) (item : JsonVal) (gcard : GenCard),
       generateOneFromItem gen c topicArg n item = .ok gcard →
       (gcard.options.filter (fun o => o.id = gcard.correctOptionId)).length = 1) := by
  constructor
  · intro c respText res h card hcard
    unfold extractCore parseAndLoop at h
    split at h
    · simp at h
    · next items heq =>
      exact loopItems_ok_forall gen _
        (fun c2 it card2 cN _ hp => promoteItem_unique gen hinj c2 it card2 cN hp)
        items _ 0 c [] res (by simp) h card hcard
    · simp at h
  · intro c topicArg n item gcard h
    obtain ⟨os, q, copt, hopts, hidx, hcid⟩ :=
      generateOne_ok_elim gen c topicArg n item gcard h
    obtain ⟨hget, -, -, -⟩ := jsIndex_some_elim _ q copt hidx
    rw [hopts, hcid]
    exact filter_id_count_one _ _ _ (genOptions_ids_nodup gen hinj os c) hget

/-- Witness for C5, at the claim C1 example batch and the demo generator. -/
theorem c5_witness :
    (demoCard.options.filter (fun o => o.id = demoCard.correctOptionId)).length = 1 :=
  (c5_unique_correct_option genDemo genDemo_inj).1 0 c1ExampleText [demoCard] rfl
    demoCard (List.mem_singleton.mpr rfl)

theorem loopItems_cancelled (signal : Nat → Bool) (gen : Nat → String) :
    ∀ (items : List JsonVal) (t c : Nat) (acc : List FlashcardMCQ) (tq : Nat),
      t ≤ tq → tq < (loopItems signal gen t c acc items).2 → signal tq = true →
      (loopItems signal gen t c acc items).1 = .error .cancelled := by
  intro items
  induction items with
  | nil =>
    intro t c acc tq h1 h2 h3
    simp only [loopItems] at h2
    omega
  | cons item rest ih =>
    intro t c acc tq h1 h2 h3
    by_cases hs : signal t = true
    · simp [loopItems, hs]
    · have hne : t ≠ tq := fun he => hs (he ▸ h3)
      simp only [loopItems, hs, Bool.false_eq_true, if_false] at h2 ⊢
      by_cases hn : isNull item = true
      · simp only [hn, if_true] at h2
        omega
      · simp only [hn, Bool.false_eq_true, if_false] at h2 ⊢
        by_cases hv : itemValid item = true
        · simp only [hv, if_true] at h2 ⊢
          rcases hp : promoteItem gen c item with e | pr
          · simp only [hp] at h2
            exact absurd h2 (by omega)
          · obtain ⟨card, cNext⟩ := pr
            simp only [hp] at h2 ⊢
            exact ih (t + 1) cNext (card :: acc) tq (by omega) h2 h3
        · simp only [hv, Bool.false_eq_true, if_false] at h2 ⊢
          exact ih (t + 1) c acc tq (by omega) h2 h3

/-- Claim C2 (confirmed): whenever the cancellation signal is observed
triggered at any of `extractMCQsFromPDF`'s checkpoints (before any work,
at/during the document read, after the read, after the service call, or
during the per-element loop), the run fails with the `Cancelled` error —
never returning a truncated partial card sequence — and the orchestrating
layer (`handlePdfFileSelected`) leaves the card store untouched, so no cards
are appended and nothing new is persisted. -/
theorem c2_cancelled_no_side_effect (signal : Nat → Bool) (gen : Nat → String)
    (t0 c : Nat) (fileRead : Except Unit String) (respText : String)
    (h : ∃ tq, t0 ≤ tq ∧ tq < (extractRun signal gen t0 c fileRead respText).2 ∧
         signal tq = true) :
    (extractRun signal gen t0 c fileRead respText).1 = .error .cancelled ∧
    ∀ (st : List FlashcardMCQ) (name : String),
      handleImport st name (extractRun signal gen t0 c fileRead respText).1 = st := by
  have hmain : (extractRun signal gen t0 c fileRead respText).1 = .error .cancelled := by
    obtain ⟨tq, h1, h2, h3⟩ := h
    unfold extractRun at h2 ⊢
    by_cases hs0 : signal t0 = true
    · simp [hs0]
    · have hne0 : t0 ≠ tq := fun he => hs0 (he ▸ h3)
      simp only [hs0, Bool.false_eq_true, if_false] at h2 ⊢
      by_cases hs1 : signal (t0 + 1) = true
      · simp [hs1]
      · have hne1 : t0 + 1 ≠ tq := fun he => hs1 (he ▸ h3)
        simp only [hs1, Bool.false_eq_true, if_false] at h2 ⊢
        by_cases hs2 : signal (t0 + 2) = true
        · simp [hs2]
        · have hne2 : t0 + 2 ≠ tq := fun he => hs2 (he ▸ h3)
          simp only [hs2, Bool.false_eq_true, if_false] at h2 ⊢
          rcases fileRead with u | fs
          · dsimp only at h2
            omega
          · dsimp only at h2 ⊢
            by_cases hs3 : signal (t0 + 3) = true
            · simp [hs3]
            · have hne3 : t0 + 3 ≠ tq := fun he => hs3 (he ▸ h3)
              simp only [hs3, Bool.false_eq_true, if_false] at h2 ⊢
              by_cases hs4 : signal (t0 + 4) = true
              · simp [hs4]
              · have hne4 : t0 + 4 ≠ tq := fun he => hs4 (he ▸ h3)
                simp only [hs4, Bool.false_eq_true, if_false] at h2 ⊢
                unfold parseAndLoop at h2 ⊢
                split at h2
                · exact absurd h2 (by omega)
                · next items heq =>
                  exact loopItems_cancelled signal gen items (t0 + 5) c [] tq
                    (by omega) h2 h3
                · exact absurd h2 (by omega)
  exact ⟨hmain, fun st name => by rw [hmain]; rfl⟩

/-- Witness for C2: a concrete run whose signal triggers at the third
observation is cancelled and appends nothing to a store. -/
theorem c2_witness :
    (extractRun sigDemo genDemo 0 0 (.ok "") "[]").1 = .error .cancelled ∧
    handleImport [] "doc.pdf" (extractRun sigDemo genDemo 0 0 (.ok "") "[]").1 = [] :=
  ⟨(c2_cancelled_no_side_effect sigDemo genDemo 0 0 (.ok "") "[]"
      ⟨2, by decide, by decide, by decide⟩).1,
   (c2_cancelled_no_side_effect sigDemo genDemo 0 0 (.ok "") "[]"
      ⟨2, by decide, by decide, by decide⟩).2 [] "doc.pdf"⟩

theorem mem_insortStr (s a : String) :
    ∀ l : List String, a ∈ insortStr s l ↔ a = s ∨ a ∈ l := by
  intro l
  induction l with
  | nil => simp [insortStr]
  | cons x xs ih =>
    simp only [insortStr]
    by_cases hle : s ≤ x
    · simp [hle]
    · simp only [hle, if_false, List.mem_cons, ih]
      tauto

theorem pairwise_insortStr (s : String) :
    ∀ l : List String, l.Pairwise (· ≤ ·) → (insortStr s l).Pairwise (· ≤ ·) := by
  intro l
  induction l with
  | nil => intro _; simp [insortStr]
  | cons x xs ih =>
    intro hp
    rw [List.pairwise_cons] at hp
    simp only [insortStr]
    by_cases hle : s ≤ x
    · rw [if_pos hle, List.pairwise_cons]
      refine ⟨?_, List.pairwise_cons.mpr hp⟩
      intro b hb
      rcases List.mem_cons.mp hb with h | h
      · exact h ▸ hle
      · exact le_trans hle (hp.1 b h)
    · rw [if_neg hle, List.pairwise_cons]
      refine ⟨?_, ih hp.2⟩
      intro b hb
      rcases (mem_insortStr s b xs).mp hb with h | h
      · exact h ▸ le_of_not_le hle
      · exact hp.1 b h

theorem nodup_insortStr (s : String) :
    ∀ l : List String, s ∉ l → l.Nodup → (insortStr s l).Nodup := by
  intro l
  induction l with
  | nil => intro _ _; simp [insortStr]
  | cons x xs ih =>
    intro hs hnd
    rw [List.nodup_cons] at hnd
    simp only [insortStr]
    by_cases hle : s ≤ x
    · rw [if_pos hle, List.nodup_cons, List.nodup_cons]
      exact ⟨fun h => hs (List.mem_cons.mpr (by tauto)), hnd.1, hnd.2⟩
    · rw [if_neg hle, List.nodup_cons]
      refine ⟨?_, ih (fun h => hs (List.mem_cons_of_mem _ h)) hnd.2⟩
      intro hx
      rcases (mem_insortStr s x xs).mp hx with h | h
      · exact hs (h ▸ List.mem_cons_self _ _)
      · exact hnd.1 h

theorem mem_sortStr (a : String) : ∀ l : List String, a ∈ sortStr l ↔ a ∈ l := by
  intro l
  induction l with
  | nil => simp [sortStr]
  | cons x xs ih =>
    show a ∈ insortStr x (sortStr xs) ↔ _
    rw [mem_insortStr, ih]
    simp

theorem pairwise_sortStr : ∀ l : List String, (sortStr l).Pairwise (· ≤ ·) := by
  intro l
  induction l with
  | nil => simp [sortStr]
  | cons x xs ih => exact pairwise_insortStr x (sortStr xs) ih

theorem nodup_sortStr : ∀ l : List String, l.Nodup → (sortStr l).Nodup := by
  intro l
  induction l with
  | nil => intro _; simp [sortStr]
  | cons x xs ih =>
    intro hnd
    rw [List.nodup_cons] at hnd
    exact nodup_insortStr x (sortStr xs) (fun h => hnd.1 ((mem_sortStr x xs).mp h))
      (ih hnd.2)

theorem mem_dedupGo (a : String) :
    ∀ (l seen : List String), a ∈ dedupGo seen l ↔ a ∈ l ∧ a ∉ seen := by
  intro l
  induction l with
  | nil => intro seen; simp [dedupGo]
  | cons x xs ih =>
    intro seen
    simp only [dedupGo]
    by_cases hx : x ∈ seen
    · rw [if_pos hx, ih]
      by_cases hax : a = x
      · subst hax; simp [hx]
      · simp [hax]
    · rw [if_neg hx]
      by_cases hax : a = x
      · subst hax; simp [hx]
      · simp [hax, ih]

theorem nodup_dedupGo : ∀ (l seen : List String), (dedupGo seen l).Nodup := by
  intro l
  induction l with
  | nil => intro seen; simp [dedupGo]
  | cons x xs ih =>
    intro seen
    simp only [dedupGo]
    by_cases hx : x ∈ seen
    · rw [if_pos hx]; exact ih seen
    · rw [if_neg hx, List.nodup_cons]
      refine ⟨fun h => ?_, ih (x :: seen)⟩
      exact ((mem_dedupGo x xs (x :: seen)).mp h).2 (List.mem_cons_self _ _)

theorem mem_sourceNames (s : String) (cards : List FlashcardMCQ) :
    s ∈ sourceNames cards ↔
      ∃ card ∈ cards, card.sourcePdfName = some s ∧ s ≠ "" := by
  unfold sourceNames
  rw [List.mem_filterMap]
  constructor
  · rintro ⟨card, hc, hf⟩
    rcases hsp : card.sourcePdfName with _ | s2
    · simp only [hsp] at hf
      exact absurd hf (by simp)
    · simp only [hsp] at hf
      by_cases he : s2 = ""
      · rw [if_pos he] at hf; exact absurd hf (by simp)
      · rw [if_neg he] at hf
        injection hf with hf2
        subst hf2
        exact ⟨card, hc, hsp, he⟩
  · rintro ⟨card, hc, hsp, hne⟩
    exact ⟨card, hc, by simp [hsp, hne]⟩

/-- Claim C10 (confirmed): the derived source index lists each distinct
non-empty source name of the collection exactly once (strictly ascending
lexicographic order implies no duplicates), and contains a name iff some card
carries it as a non-empty `sourcePdfName`; cards with absent or empty source
names contribute nothing. -/
theorem c10_source_index (cards : List FlashcardMCQ) :
    (uniquePdfSources cards).Pairwise (· < ·) ∧
    ∀ s : String, s ∈ uniquePdfSources cards ↔
      ∃ card ∈ cards, card.sourcePdfName = some s ∧ s ≠ "" := by
  have hnd : (uniquePdfSources cards).Nodup :=
    nodup_sortStr _ (nodup_dedupGo _ _)
  have hle : (uniquePdfSources cards).Pairwise (· ≤ ·) := pairwise_sortStr _
  constructor
  · exact (hle.and hnd).imp fun h => lt_of_le_of_ne h.1 h.2
  · intro s
    unfold uniquePdfSources
    rw [mem_sortStr, mem_dedupGo, mem_sourceNames]
    simp

/-- Witness for C10: `"b.pdf"` appears in the index of the demo collection. -/
theorem c10_witness : "b.pdf" ∈ uniquePdfSources c10Cards :=
  ((c10_source_index c10Cards).2 "b.pdf").mpr
    ⟨mkCard "1" (.str "q") (some "b.pdf"), List.mem_cons_self _ _, rfl, by decide⟩

theorem fenceTail_wrap (u : List Char) :
    fenceTail (u ++ [nlChar] ++ fence3) = u.all jsWhite := by
  unfold fenceTail
  rw [List.reverse_append, show fence3.reverse = fence3 from by decide,
    List.take_left' (show fence3.length = 3 from by decide),
    List.drop_left' (show fence3.length = 3 from by decide),
    List.reverse_append]
  simp [List.all_reverse, show jsWhite nlChar = true from by decide]

theorem rstrip_of_all_white (u : List Char) (h : u.all jsWhite = true) :
    rstrip u = [] := by
  unfold rstrip
  rw [List.dropWhile_eq_nil_iff.mpr
    (fun x hx => List.all_eq_true.mp h x (List.mem_reverse.mp hx))]
  rfl

theorem rstrip_cons_of_not_all (c : Char) (u : List Char)
    (h : ¬ (c :: u).all jsWhite = true) : rstrip (c :: u) = c :: rstrip u := by
  unfold rstrip
  rw [List.reverse_cons, List.dropWhile_append]
  by_cases hall : u.all jsWhite = true
  · have hc : jsWhite c = false := by
      rcases Bool.eq_false_or_eq_true (jsWhite c) with h2 | h2
      · exact absurd (by simp [List.all_cons, h2, hall]) h
      · exact h2
    have hde : u.reverse.dropWhile jsWhite = [] :=
      List.dropWhile_eq_nil_iff.mpr
        (fun x hx => List.all_eq_true.mp hall x (List.mem_reverse.mp hx))
    rw [hde]
    simp [List.dropWhile_cons, hc]
  · have hne : ¬ (u.reverse.dropWhile jsWhite = []) := by
      intro he
      exact hall (List.all_eq_true.mpr
        (fun x hx => List.dropWhile_eq_nil_iff.mp he x (List.mem_reverse.mpr hx)))
    rw [if_neg (by simpa [List.isEmpty_iff] using hne)]
    rw [List.reverse_append]
    simp

theorem lazyCapture_wrap :
    ∀ (u acc : List Char),
      lazyCapture acc (u ++ [nlChar] ++ fence3) = some (acc.reverse ++ rstrip u) := by
  intro u
  induction u with
  | nil =>
    intro acc
    rw [show ([] : List Char) ++ [nlChar] ++ fence3 = nlChar :: fence3 from by simp]
    simp only [lazyCapture, show fenceTail (nlChar :: fence3) = true from by decide,
      if_true]
    simp [rstrip]
  | cons c u2 ih =>
    intro acc
    have hshape : (c :: u2) ++ [nlChar] ++ fence3 = c :: (u2 ++ [nlChar] ++ fence3) := by
      simp
    have hft : fenceTail (c :: (u2 ++ [nlChar] ++ fence3)) = (c :: u2).all jsWhite := by
      rw [← hshape]
      exact fenceTail_wrap (c :: u2)
    rw [hshape]
    by_cases hall : (c :: u2).all jsWhite = true
    · simp only [lazyCapture, hft, hall, if_true]
      rw [rstrip_of_all_white _ hall]
      simp
    · have hallf : (c :: u2).all jsWhite = false := Bool.eq_false_iff.mpr hall
      simp only [lazyCapture, hft, hallf, Bool.false_eq_true, if_false, List.tail_cons]
      rw [ih (c :: acc), rstrip_cons_of_not_all c u2 hall]
      simp

theorem wrapFence_data (t : String) :
    (wrapFence t).data = fence3 ++ [nlChar] ++ t.data ++ [nlChar] ++ fence3 := by
  unfold wrapFence
  simp only [String.data_append, show "\n".data = [nlChar] from by decide]
  rfl

theorem matchFence_wrap (t : String) :
    matchFence ((wrapFence t).data) = some (jsTrimList t.data) := by
  rw [wrapFence_data]
  unfold matchFence
  rw [show fence3 ++ [nlChar] ++ t.data ++ [nlChar] ++ fence3 =
        fence3 ++ ([nlChar] ++ (t.data ++ ([nlChar] ++ fence3))) from by simp]
  rw [if_pos (List.take_left' (show fence3.length = 3 from by decide)),
    List.drop_left' (show fence3.length = 3 from by decide)]
  rw [show [nlChar] ++ (t.data ++ ([nlChar] ++ fence3)) =
        nlChar :: (t.data ++ ([nlChar] ++ fence3)) from rfl]
  rw [List.dropWhile_cons, if_neg (show ¬ isWordChar nlChar = true from by decide)]
  rw [List.dropWhile_cons, if_pos (show jsWhite nlChar = true from by decide)]
  rw [List.dropWhile_append]
  by_cases hz : t.data.dropWhile jsWhite = []
  · rw [if_pos (by simp [List.isEmpty_iff, hz])]
    rw [show List.dropWhile jsWhite ([nlChar] ++ fence3) = fence3 from by decide]
    rw [show lazyCapture [] fence3 = some [] from by decide]
    unfold jsTrimList
    rw [hz]
    rfl
  · rw [if_neg (by simp [List.isEmpty_iff, hz])]
    rw [show t.data.dropWhile jsWhite ++ ([nlChar] ++ fence3) =
          t.data.dropWhile jsWhite ++ [nlChar] ++ fence3 from by simp]
    rw [lazyCapture_wrap]
    rfl

theorem jsTrimList_eq_self (l : List Char)
    (hhead : ∀ x, l.head? = some x → jsWhite x = false)
    (hlast : ∀ x, l.reverse.head? = some x → jsWhite x = false) :
    jsTrimList l = l := by
  unfold jsTrimList rstrip
  have h1 : l.dropWhile jsWhite = l := by
    cases l with
    | nil => rfl
    | cons c l2 =>
      rw [List.dropWhile_cons, if_neg (by rw [hhead c rfl]; simp)]
  rw [h1]
  have h2 : l.reverse.dropWhile jsWhite = l.reverse := by
    cases hrev : l.reverse with
    | nil => rfl
    | cons c r2 =>
      rw [List.dropWhile_cons, if_neg (by rw [hlast c (by rw [hrev]; rfl)]; simp)]
  rw [h2, List.reverse_reverse]

theorem jsTrim_wrap (t : String) : jsTrim (wrapFence t) = wrapFence t := by
  unfold jsTrim
  rw [jsTrimList_eq_self]
  · intro x hx
    rw [wrapFence_data, show fence3 = [Char.ofNat 96, Char.ofNat 96, Char.ofNat 96]
      from by decide] at hx
    simp only [List.cons_append, List.head?_cons, Option.some.injEq] at hx
    rw [← hx]
    decide
  · intro x hx
    rw [wrapFence_data, show fence3 = [Char.ofNat 96, Char.ofNat 96, Char.ofNat 96]
      from by decide] at hx
    simp at hx
    subst hx
    decide

theorem dropWhile_idem (p : Char → Bool) :
    ∀ l : List Char, (l.dropWhile p).dropWhile p = l.dropWhile p := by
  intro l
  induction l with
  | nil => rfl
  | cons c l2 ih =>
    rw [List.dropWhile_cons]
    by_cases hc : p c = true
    · rw [if_pos hc]
      exact ih
    · rw [if_neg hc, List.dropWhile_cons, if_neg hc]

theorem lstrip_rstrip (l : List Char) :
    (rstrip (l.dropWhile jsWhite)).dropWhile jsWhite = rstrip (l.dropWhile jsWhite) := by
  induction l with
  | nil => rfl
  | cons c l2 ih =>
    rw [List.dropWhile_cons]
    by_cases hc : jsWhite c = true
    · rw [if_pos hc]
      exact ih
    · rw [if_neg hc]
      by_cases hall : (c :: l2).all jsWhite = true
      · exact absurd hall (by simp [List.all_cons, hc])
      · rw [rstrip_cons_of_not_all c l2 hall, List.dropWhile_cons, if_neg hc]

theorem rstrip_idem (l : List Char) : rstrip (rstrip l) = rstrip l := by
  unfold rstrip
  rw [List.reverse_reverse, dropWhile_idem]

theorem jsTrimList_idem (l : List Char) :
    jsTrimList (jsTrimList l) = jsTrimList l := by
  unfold jsTrimList
  rw [lstrip_rstrip l, rstrip_idem]

theorem jsTrim_mk_trim (l : List Char) :
    jsTrim (String.mk (jsTrimList l)) = String.mk (jsTrimList l) := by
  unfold jsTrim
  rw [show (String.mk (jsTrimList l)).data = jsTrimList l from rfl, jsTrimList_idem]

theorem jsonParse_wrap_none (t : String) : jsonParse (wrapFence t) = none := by
  unfold jsonParse
  have hrest : (wrapFence t).data = Char.ofNat 96 :: (Char.ofNat 96 :: Char.ofNat 96 ::
      nlChar :: (t.data ++ [nlChar, Char.ofNat 96, Char.ofNat 96, Char.ofNat 96])) := by
    rw [wrapFence_data, show fence3 = [Char.ofNat 96, Char.ofNat 96, Char.ofNat 96]
      from by decide]
    simp
  rw [hrest, List.dropWhile_cons, if_neg (show ¬ isJsonWs (Char.ofNat 96) = true
    from by decide)]
  simp only [parseVal,
    show (Char.ofNat 96 == '"') = false from by decide,
    show (Char.ofNat 96 == 'n') = false from by decide,
    show (Char.ofNat 96 == 't') = false from by decide,
    show (Char.ofNat 96 == 'f') = false from by decide,
    show (Char.ofNat 96 == '-') = false from by decide,
    show (Char.ofNat 96).isDigit = false from by decide,
    show (Char.ofNat 96 == '[') = false from by decide,
    show ((Char.ofNat 96).toNat == 0x7b) = false from by decide,
    Bool.false_eq_true, if_false]

theorem stripAndTrim_wrap (t : String) :
    stripAndTrim (wrapFence t) =
      if jsTrimList t.data = [] then wrapFence t else jsTrim t := by
  unfold stripAndTrim
  rw [jsTrim_wrap]
  simp only [matchFence_wrap]
  by_cases hz : jsTrimList t.data = []
  · rw [if_pos hz, if_pos hz]
  · rw [if_neg hz, if_neg hz, jsTrim_mk_trim]
    rfl

/-- Counterexample to claim C7: a response text that is itself a fenced JSON
array.  Unwrapped, the fence is stripped and `[1]` parses (the numeric item
is then skipped, giving an empty success); wrapped in a further fence, the
single strip leaves the inner fenced block, which is not JSON, so the run
fails with `MalformedResponse` — the two runs do not parse identically. -/
theorem c7_counterexample :
    extractCore genDemo 0 tFence = .ok [] ∧
    extractCore genDemo 0 (wrapFence tFence) = .error .malformedResponse ∧
    (Except.ok ([] : List FlashcardMCQ) =
      (Except.error .malformedResponse : Except ExtErr (List FlashcardMCQ)) → False) :=
  ⟨rfl, rfl, fun h => Except.noConfusion h⟩

/-- Claim C7 (amended): for every response text `t` on which the fence strip
is a no-op (`t` is not itself recognized as a fenced block — the stripped
text equals `t.trim()`), both `extractMCQsFromPDF` and `generateMCQWithGemini`
applied to `t` wrapped in a surrounding triple-backtick fence produce the
same result as applied to `t`: the wrapper is stripped before parsing and
the two runs parse identically. -/
theorem c7_amended (gen : Nat → String) (c : Nat) (topicArg : String)
    (n : Nat) (t : String) (h : stripAndTrim t = jsTrim t) :
    extractCore gen c (wrapFence t) = extractCore gen c t ∧
    generateOneCore gen c topicArg n (wrapFence t) =
      generateOneCore gen c topicArg n t := by
  constructor
  · unfold extractCore parseAndLoop
    rw [stripAndTrim_wrap, h]
    by_cases hz : jsTrimList t.data = []
    · rw [if_pos hz]
      rw [show jsonParse (wrapFence t) = none from jsonParse_wrap_none t]
      rw [show jsTrim t = String.mk (jsTrimList t.data) from rfl, hz]
      rw [show jsonParse (String.mk []) = none from rfl]
    · rw [if_neg hz]
  · unfold generateOneCore
    rw [stripAndTrim_wrap, h]
    by_cases hz : jsTrimList t.data = []
    · rw [if_pos hz]
      rw [show jsonParse (wrapFence t) = none from jsonParse_wrap_none t]
      rw [show jsTrim t = String.mk (jsTrimList t.data) from rfl, hz]
      rw [show jsonParse (String.mk []) = none from rfl]
    · rw [if_neg hz]

/-- Witness for C7 (amended), at the plain array text `"[2]"` (not itself
fenced, so the strip is a no-op), for both pipelines. -/
theorem c7_witness :
    extractCore genDemo 0 (wrapFence "[2]") = extractCore genDemo 0 "[2]" ∧
    generateOneCore genDemo 0 "Photosynthesis" 4 (wrapFence "[2]") =
      generateOneCore genDemo 0 "Photosynthesis" 4 "[2]" :=
  c7_amended genDemo 0 "Photosynthesis" 4 "[2]" rfl
